import Mathlib

/-!
Verification of the classification pipeline of the Project-Analyzer backend
(`backend/services/project_analyzer.py` and its HTTP entry point in
`backend/main.py`).

The Python source is embedded shallowly:

* file contents are Lean `String`s, scanned as `List Char`;
* the regex patterns of the signature catalog use only literal characters,
  `.*`, two-character classes, an optional character and the `$` anchor, so
  they are embedded as token lists matched by a small total engine
  (`matchToks` / `reSearch`) that mirrors `re.search` with `re.IGNORECASE`
  (a dot never matches a newline, a negated class does);
* Python `dict`s are insertion-ordered association lists;
* Python `set`s are modelled by duplicate-free lists recording first-seen
  insertion order; every place the source materialises a set with `list(...)`
  takes an explicit enumeration function `e : List String → List String`
  (the iteration order of a CPython hash set depends on the per-process
  hash seed, so it is a genuine parameter of the computation; a valid
  enumeration is any permutation of the members, see `validEnum`);
* the float `complexity_score` is computed in `ℚ`; the properties proved
  about it are insensitive to IEEE rounding.
-/

set_option maxRecDepth 20000
set_option maxHeartbeats 1000000

/-- The single-quote character, written via its code point. -/
def sqCh : Char := Char.ofNat 39

/-- Case-insensitive character equality, as used by `re.IGNORECASE`. -/
def lcEq (a b : Char) : Bool := a.toLower = b.toLower

/-- `needle` is a (case-sensitive) leading segment of `hay`. -/
def hasPre : List Char → List Char → Bool
  | [], _ => true
  | _ :: _, [] => false
  | a :: ns, c :: cs => a = c && hasPre ns cs

/-- Python `needle in hay` substring containment on character lists. -/
def containsSub (hay needle : List Char) : Bool :=
  match hay with
  | [] => needle.isEmpty
  | _ :: cs => hasPre needle hay || containsSub cs needle

/-- Substring containment on strings (Python `needle in hay`). -/
def strContains (hay needle : String) : Bool :=
  containsSub hay.data needle.data

/-- Python `str.lower()`. -/
def toLowerStr (s : String) : String := String.mk (s.data.map Char.toLower)

/-- Split a character list on a separator character; mirrors Python
`str.split(sep)` for a one-character separator: the empty list yields one
empty segment, and a trailing separator yields a trailing empty segment. -/
def splitOnCh (sep : Char) : List Char → List (List Char)
  | [] => [[]]
  | c :: cs =>
    if c = sep then [] :: splitOnCh sep cs
    else
      match splitOnCh sep cs with
      | s :: ss => (c :: s) :: ss
      | [] => [[c]]

/-- `len(content.split(chr(10)))`: the line count used by the analyzer. -/
def countLines (s : String) : Nat := (splitOnCh '\n' s.data).length

/-! ### The pattern-matching engine

The signature catalog of the source holds regular expressions using only
literal characters, `.*`, the class of the two quote characters, one
optional character and the end anchor.  A pattern is embedded as a list of
tokens; `matchToks` decides whether the token list matches a leading
segment of the text and `reSearch` mirrors `re.search` with
`re.IGNORECASE`. -/

inductive RTok where
  | ch : Char → RTok
  | dotStar : RTok
  | cls : List Char → RTok
  | opt : Char → RTok
  | eos : RTok
deriving DecidableEq

/-- A literal run of pattern characters. -/
def lit (s : String) : List RTok := s.data.map RTok.ch

/-- The text positions reachable from the current one by `.*`: greedy runs
of zero or more characters none of which is a newline (a dot does not match
a newline without `re.DOTALL`). -/
def starSuffixes : List Char → List (List Char)
  | [] => [[]]
  | c :: cs => (c :: cs) :: (if c = '\n' then [] else starSuffixes cs)

/-- Without `re.MULTILINE`, `$` matches at the end of the text or just
before a single trailing newline. -/
def eosOk : List Char → Bool
  | [] => true
  | [c] => c = '\n'
  | _ => false

/-- Does the token list match a leading segment of the text?
Case-insensitive throughout, as every catalog search passes
`re.IGNORECASE`. -/
def matchToks : List RTok → List Char → Bool
  | [], _ => true
  | .ch _ :: _, [] => false
  | .ch a :: ts, c :: cs => lcEq a c && matchToks ts cs
  | .dotStar :: ts, cs => (starSuffixes cs).any fun s => matchToks ts s
  | .cls _ :: _, [] => false
  | .cls l :: ts, c :: cs => l.any (fun a => lcEq a c) && matchToks ts cs
  | .opt _ :: ts, [] => matchToks ts []
  | .opt a :: ts, c :: cs => matchToks ts (c :: cs) || (lcEq a c && matchToks ts cs)
  | .eos :: ts, cs => eosOk cs && matchToks ts cs

/-- Try the token list at every start position. -/
def searchAt (toks : List RTok) : List Char → Bool
  | [] => matchToks toks []
  | c :: cs => matchToks toks (c :: cs) || searchAt toks cs

/-- `re.search(pattern, content, re.IGNORECASE) is not None`. -/
def reSearch (toks : List RTok) (s : String) : Bool := searchAt toks s.data

/-- The class of the two quote characters, the regex `[quote quote]`. -/
def qcls : RTok := .cls [sqCh, '"']

/-! ### The static rule tables of `ProjectAnalyzer.__init__` -/

/-- `self.supported_extensions`: extension to language name. -/
def supported_extensions : List (String × String) :=
  [(".py", "Python"), (".js", "JavaScript"), (".jsx", "React"),
   (".ts", "TypeScript"), (".tsx", "React TypeScript"), (".java", "Java"),
   (".cpp", "C++"), (".c", "C"), (".cs", "C#"), (".php", "PHP"),
   (".rb", "Ruby"), (".go", "Go"), (".rs", "Rust"), (".swift", "Swift"),
   (".kt", "Kotlin"), (".scala", "Scala"), (".html", "HTML"),
   (".css", "CSS"), (".scss", "SCSS"), (".sass", "SASS"),
   (".json", "JSON"), (".xml", "XML"), (".yaml", "YAML"), (".yml", "YAML"),
   (".md", "Markdown"), (".txt", "Text")]

/-- `self.framework_patterns`: technology name to its match patterns, in
the insertion order of the source dict literal. -/
def framework_patterns : List (String × List (List RTok)) :=
  [("React", [lit "import" ++ [.dotStar] ++ lit "react",
              lit "from " ++ [qcls] ++ lit "react" ++ [qcls],
              lit "React."]),
   ("Vue", [lit "import" ++ [.dotStar] ++ lit "vue",
            lit "from " ++ [qcls] ++ lit "vue" ++ [qcls],
            lit "Vue."]),
   ("Angular", [lit "@angular",
                lit "import" ++ [.dotStar] ++ lit "@angular",
                lit "ng-"]),
   ("Express", [lit "express()",
                lit "require(" ++ [qcls] ++ lit "express" ++ [qcls],
                lit "import" ++ [.dotStar] ++ lit "express"]),
   ("Django", [lit "from django", lit "import django", lit "django."]),
   ("Flask", [lit "from flask", lit "import flask", lit "Flask("]),
   ("FastAPI", [lit "from fastapi", lit "import fastapi", lit "FastAPI("]),
   ("Spring", [lit "@SpringBootApplication",
               lit "import" ++ [.dotStar] ++ lit "springframework",
               lit "@RestController"]),
   ("Laravel", [lit "use Illuminate",
                lit "Illuminate\\",
                [.opt '<'] ++ lit "php" ++ [.dotStar] ++ lit "laravel"]),
   ("Rails", [lit "require " ++ [qcls] ++ lit "rails" ++ [qcls],
              lit "Rails.",
              lit "class" ++ [.dotStar] ++ lit "< ApplicationController"])]

/-- `self.database_patterns`. -/
def database_patterns : List (String × List (List RTok)) :=
  [("MongoDB", [lit "mongoose", lit "mongodb://", lit "MongoClient",
                lit "from pymongo"]),
   ("PostgreSQL", [lit "postgresql://", lit "psycopg2", lit "pg_",
                   lit "PostgreSQL"]),
   ("MySQL", [lit "mysql://", lit "pymysql", lit "mysql2", lit "MySQL"]),
   ("SQLite", [lit "sqlite3", lit ".db" ++ [.eos], lit "sqlite://"]),
   ("Redis", [lit "redis://", lit "import redis", lit "Redis("]),
   ("Firebase", [lit "firebase", lit "firestore", lit "Firebase"])]

/-! ### Language lookup (`Path(filename).suffix.lower()`) -/

/-- The final path component as `pathlib` computes it: split on the path
separator, dropping empty components and single-dot components, and take
the last component. -/
def path_name (s : String) : List Char :=
  (((splitOnCh '/' s.data).filter
      (fun p => !p.isEmpty && p != ['.'])).getLast?).getD []

/-- Index of the last occurrence of a character. -/
def lastIdxOf (c : Char) (l : List Char) : Option Nat :=
  ((l.enum.filter (fun p => p.2 == c)).getLast?).map Prod.fst

/-- `pathlib.PurePath.suffix`: the extension from the last dot of the final
component, empty when the dot is leading, trailing or absent. -/
def path_suffix (s : String) : String :=
  let nm := path_name s
  match lastIdxOf '.' nm with
  | some k => if 0 < k && k + 1 < nm.length then String.mk (nm.drop k) else ""
  | none => ""

/-- `self.supported_extensions.get(ext, chr-Unknown)` on the lowered
suffix of the filename. -/
def langOf (filename : String) : String :=
  (supported_extensions.lookup (toLowerStr (path_suffix filename))).getD "Unknown"

/-! ### The aggregation loop of `ProjectAnalyzer.analyze_files` -/

/-- One uploaded file: a name and decoded text content (the `type` entry of
the source dict is never read by the analyzer). -/
structure FileRec where
  name : String
  content : String
deriving DecidableEq

/-- `languages[language] = languages.get(language, 0) + 1` on an
insertion-ordered association list: the count of an existing key is bumped
in place, a new key is appended with count `1`. -/
def bump : List (String × Nat) → String → List (String × Nat)
  | [], k => [(k, 1)]
  | p :: rest, k =>
    if p.1 = k then (p.1, p.2 + 1) :: rest else p :: bump rest k

/-- One step of the technology-detection inner loops: for every catalog
entry, if any of its patterns is found in the content the technology is
added to the detected collection (membership models the Python set; the
list records first-seen insertion order). -/
def detectStep (tbl : List (String × List (List RTok))) (acc : List String)
    (cs : List Char) : List String :=
  tbl.foldl
    (fun a p =>
      if (p.2.any fun pat => searchAt pat cs) && !a.contains p.1 then
        a ++ [p.1]
      else a)
    acc

/-- The running state of the per-file loop of `analyze_files`. -/
structure ScanState where
  languages : List (String × Nat)
  frameworks : List String
  databases : List String
  fileStructure : List String
  totalLines : Nat
deriving DecidableEq

/-- The empty state before the loop. -/
def initScan : ScanState := ⟨[], [], [], [], 0⟩

/-- The histogram update for one file: only a known language is counted. -/
def langStep (l : List (String × Nat)) (f : FileRec) : List (String × Nat) :=
  if langOf f.name != "Unknown" then bump l (langOf f.name) else l

/-- One line of the structure listing: name, language and line count. -/
def structureEntry (f : FileRec) : String :=
  f.name ++ " (" ++ langOf f.name ++ ", " ++
    toString (countLines f.content) ++ " lines)"

/-- The body of the per-file loop (lines 86-116 of the source): language
histogram update, line count, structure entry, framework and database
detection. -/
def scanFile (st : ScanState) (f : FileRec) : ScanState :=
  { languages := langStep st.languages f
    frameworks := detectStep framework_patterns st.frameworks f.content.data
    databases := detectStep database_patterns st.databases f.content.data
    fileStructure := st.fileStructure ++ [structureEntry f]
    totalLines := st.totalLines + countLines f.content }

/-- The whole per-file loop. -/
def scanFiles (files : List FileRec) : ScanState :=
  files.foldl scanFile initScan

/-- `max(languages, key=languages.get)`: CPython `max` keeps the current
candidate unless a later value is strictly greater, so it returns the first
key attaining the maximal count in dict insertion order. -/
def maxByCount : List (String × Nat) → Option String
  | [] => none
  | p :: rest =>
    some ((rest.foldl (fun b q => if q.2 > b.2 then q else b) p).1)

/-- `frontend_frameworks.intersection(frameworks)` is non-empty. -/
def hasFrontendFw (frameworks : List String) : Bool :=
  ["React", "Vue", "Angular"].any frameworks.contains

/-- `backend_frameworks.intersection(frameworks)` is non-empty. -/
def hasBackendFw (frameworks : List String) : Bool :=
  ["Express", "Django", "Flask", "FastAPI", "Spring", "Laravel", "Rails"].any
    frameworks.contains

/-- `ProjectAnalyzer._determine_architecture`. -/
def determine_architecture (frameworks : List String)
    (languages : List (String × Nat)) : String :=
  if hasFrontendFw frameworks && hasBackendFw frameworks then "Full-stack"
  else if hasFrontendFw frameworks then "Frontend"
  else if hasBackendFw frameworks then "Backend"
  else if (languages.any fun p => p.1 == "HTML") &&
          (languages.any fun p => p.1 == "CSS") then "Static Website"
  else "Unknown"

/-! ### `re.findall` extractors

Each extractor of the source runs `re.findall` with a fixed pattern.  The
generic scanner below tries a single-match step at every position and, on a
match, continues after it (matches are non-overlapping and found left to
right, as `findall` does; every step of the concrete extractors consumes at
least one character, the guard in the scanner only serves termination). -/

def findAllAux {α : Type} (step : List Char → Option (α × List Char)) :
    Nat → List Char → List α
  | 0, _ => []
  | Nat.succ n, cs =>
    match cs with
    | [] =>
      match step [] with
      | some (a, _) => [a]
      | none => []
    | c :: cs2 =>
      match step (c :: cs2) with
      | some (a, rest) =>
        a :: findAllAux step n (if rest.length < cs2.length + 1 then rest else cs2)
      | none => findAllAux step n cs2

/-- The scanner proper; the structural fuel equals the text length plus
one, which the length guard above keeps sufficient, so the fuel never runs
out and the function computes exactly the findall loop. -/
def findAllMatches {α : Type} (step : List Char → Option (α × List Char))
    (cs : List Char) : List α :=
  findAllAux step (cs.length + 1) cs

/-- Consume a case-sensitive literal. -/
def stripLit : List Char → List Char → Option (List Char)
  | [], cs => some cs
  | _ :: _, [] => none
  | a :: ns, c :: cs => if a = c then stripLit ns cs else none

/-- Consume a case-insensitive literal. -/
def stripCI : List Char → List Char → Option (List Char)
  | [], cs => some cs
  | _ :: _, [] => none
  | a :: ns, c :: cs => if lcEq a c then stripCI ns cs else none

/-- Regex whitespace class. -/
def isWs (c : Char) : Bool :=
  c = ' ' || c = '\t' || c = '\n' || c = '\x0d' || c = '\x0c' || c = '\x0b'

/-- Regex word-character class. -/
def isWordCh (c : Char) : Bool :=
  c.isAlpha || c.isDigit || c = '_'

/-- One-or-more whitespace characters, greedily. -/
def wsPlus (cs : List Char) : Option (List Char) :=
  if (cs.takeWhile isWs).isEmpty then none else some (cs.dropWhile isWs)

/-- A maximal non-empty word-character run and the rest. -/
def wordPlus (cs : List Char) : Option (List Char × List Char) :=
  let w := cs.takeWhile isWordCh
  if w.isEmpty then none else some (w, cs.dropWhile isWordCh)

/-- Is the character one of the two quotes? -/
def isQuote (c : Char) : Bool := c = sqCh || c = '"'

/-- A quote, then a maximal non-empty run of non-quote characters, then a
closing quote (the class excludes both quotes but allows newlines). -/
def quotedChunk (cs : List Char) : Option (List Char × List Char) :=
  match cs with
  | [] => none
  | q :: rest =>
    if isQuote q then
      let body := rest.takeWhile (fun c => !isQuote c)
      match rest.dropWhile (fun c => !isQuote c) with
      | q2 :: rest2 => if !body.isEmpty && isQuote q2 then some (body, rest2) else none
      | [] => none
    else none

/-- The HTTP methods of the endpoint patterns, in alternation order, with
the uppercased form `findall` results are mapped to. -/
def httpMethods : List (String × String) :=
  [("get", "GET"), ("post", "POST"), ("put", "PUT"),
   ("delete", "DELETE"), ("patch", "PATCH")]

/-- Try the method alternation case-insensitively. -/
def tryMethod : List (String × String) → List Char → Option (String × List Char)
  | [], _ => none
  | (m, u) :: ms, cs =>
    match stripCI m.data cs with
    | some rest => some (u, rest)
    | none => tryMethod ms cs

/-- An extracted endpoint: uppercased method and path. -/
structure Endpoint where
  method : String
  path : String
deriving DecidableEq

/-- One endpoint-decorator match at the current position, for a given
pattern head such as the at-app-dot text: head, method, an opening
parenthesis, then a quoted path. -/
def endpointStep (pre : String) (cs : List Char) : Option (Endpoint × List Char) :=
  match stripCI pre.data cs with
  | none => none
  | some cs1 =>
    match tryMethod httpMethods cs1 with
    | none => none
    | some (m, cs2) =>
      match cs2 with
      | '(' :: cs3 =>
        match quotedChunk cs3 with
        | some (body, rest) => some (⟨m, String.mk body⟩, rest)
        | none => none
      | _ => none

/-- `ProjectAnalyzer._extract_api_endpoints`: the three decorator patterns
are matched in sequence, each over the whole content, results appended. -/
def extract_api_endpoints (content : String) : List Endpoint :=
  findAllMatches (endpointStep "@app.") content.data ++
  findAllMatches (endpointStep "@router.") content.data ++
  findAllMatches (endpointStep "app.") content.data

/-- One match of the class-name pattern: the literal `word-c-l-a-s-s`, one
or more whitespace characters, then a captured word (case-sensitive, no
word boundary required before the literal). -/
def classNameStep (cs : List Char) : Option (String × List Char) :=
  match stripLit "class".data cs with
  | none => none
  | some cs1 =>
    match wsPlus cs1 with
    | none => none
    | some cs2 =>
      match wordPlus cs2 with
      | some (w, rest) => some (String.mk w, rest)
      | none => none

/-- `ProjectAnalyzer._extract_models`. -/
def extract_models (content : String) : List String :=
  findAllMatches classNameStep content.data

/-- One match of the CREATE TABLE pattern, case-insensitive, with the
optional IF NOT EXISTS group tried greedily first. -/
def sqlTableStep (cs : List Char) : Option (String × List Char) :=
  match stripCI "create".data cs with
  | none => none
  | some cs1 =>
    match wsPlus cs1 with
    | none => none
    | some cs2 =>
      match stripCI "table".data cs2 with
      | none => none
      | some cs3 =>
        match wsPlus cs3 with
        | none => none
        | some cs4 =>
          let afterOpt :=
            match stripCI "if".data cs4 with
            | none => none
            | some a =>
              match wsPlus a with
              | none => none
              | some b =>
                match stripCI "not".data b with
                | none => none
                | some c =>
                  match wsPlus c with
                  | none => none
                  | some d =>
                    match stripCI "exists".data d with
                    | none => none
                    | some e =>
                      match wsPlus e with
                      | none => none
                      | some f => wordPlus f
          match afterOpt with
          | some (w, rest) => some (String.mk w, rest)
          | none =>
            match wordPlus cs4 with
            | some (w, rest) => some (String.mk w, rest)
            | none => none

/-- `ProjectAnalyzer._extract_sql_tables`. -/
def extract_sql_tables (content : String) : List String :=
  findAllMatches sqlTableStep content.data

/-- Opening curly brace character, written via its code point. -/
def lbr : Char := Char.ofNat 123

/-- Closing curly brace character, written via its code point. -/
def rbr : Char := Char.ofNat 125

/-- A case-sensitive keyword followed by one-or-more whitespace. -/
def optKw (kw : String) (cs : List Char) : Option (List Char) :=
  match stripLit kw.data cs with
  | none => none
  | some r => wsPlus r

/-- First candidate position at which a captured word matches. -/
def firstWord : List (List Char) → Option (String × List Char)
  | [] => none
  | c :: cands =>
    match wordPlus c with
    | some (w, rest) => some (String.mk w, rest)
    | none => firstWord cands

/-- One match of the first export pattern: the export keyword, whitespace,
the optional default and function groups tried greedily in backtracking
order, then a captured word.  Case-sensitive. -/
def exportStep (cs : List Char) : Option (String × List Char) :=
  match stripLit "export".data cs with
  | none => none
  | some cs1 =>
    match wsPlus cs1 with
    | none => none
    | some cs2 =>
      let cands : List (List Char) :=
        (match optKw "default" cs2 with
         | some cs3 =>
           (match optKw "function" cs3 with
            | some cs4 => [cs4, cs3]
            | none => [cs3])
         | none => []) ++
        (match optKw "function" cs2 with
         | some cs3 => [cs3]
         | none => []) ++ [cs2]
      firstWord cands

/-- One match of the braced export pattern: the export keyword, optional
whitespace, an opening brace, a captured non-empty run of characters other
than the closing brace, then the closing brace; the leading whitespace of
the capture is eaten greedily by the preceding whitespace star, and when
the braces hold only whitespace the backtracking regex captures exactly the
last whitespace character. -/
def exportBraceStep (cs : List Char) : Option (String × List Char) :=
  match stripLit "export".data cs with
  | none => none
  | some cs1 =>
    match cs1.dropWhile isWs with
    | c :: cs3 =>
      if c = lbr then
        let seg := cs3.takeWhile (fun d => d ≠ rbr)
        match cs3.dropWhile (fun d => d ≠ rbr) with
        | _ :: rest =>
          if seg.any (fun d => !isWs d) then
            some (String.mk (seg.dropWhile isWs), rest)
          else
            match seg.getLast? with
            | some d => some (String.mk [d], rest)
            | none => none
        | [] => none
      else none
    | [] => none

/-- `ProjectAnalyzer._extract_exports`: both patterns over the whole
content, results appended. -/
def extract_exports (content : String) : List String :=
  findAllMatches exportStep content.data ++
  findAllMatches exportBraceStep content.data

/-- The from clause of the import pattern: the from keyword, whitespace,
then a quoted module path. -/
def fromClause (cs : List Char) : Option (String × List Char) :=
  match stripLit "from".data cs with
  | none => none
  | some r1 =>
    match wsPlus r1 with
    | none => none
    | some r2 =>
      match quotedChunk r2 with
      | some (body, rest) => some (String.mk body, rest)
      | none => none

/-- The greedy dot-star before the from clause: prefer the latest start
position reachable without crossing a newline. -/
def importTail : List Char → Option (String × List Char)
  | [] => none
  | c :: cs =>
    (if c ≠ '\n' then importTail cs else none) <|> fromClause (c :: cs)

/-- One match of the import-from pattern: the import keyword, whitespace
(which may cross newlines), any characters on one line, then the from
clause; greediness picks the last from clause of the line. -/
def importFromStep (cs : List Char) : Option (String × List Char) :=
  match stripLit "import".data cs with
  | none => none
  | some r1 =>
    match wsPlus r1 with
    | none => none
    | some r2 => importTail r2

/-- One match of the require pattern: the require keyword, an opening
parenthesis, a quoted module path, a closing parenthesis. -/
def requireStep (cs : List Char) : Option (String × List Char) :=
  match stripLit "require(".data cs with
  | none => none
  | some r =>
    match quotedChunk r with
    | some (body, rest) =>
      match rest with
      | ')' :: rest2 => some (String.mk body, rest2)
      | _ => none
    | none => none

/-- `ProjectAnalyzer._extract_imports`. -/
def extract_imports (content : String) : List String :=
  findAllMatches importFromStep content.data ++
  findAllMatches requireStep content.data

/-- First character of a CSS class selector (ASCII letter, underscore or
hyphen; the analyzed contents are ASCII text). -/
def isCssStart (c : Char) : Bool := c.isAlpha || c = '_' || c = '-'

/-- Continuation character of a CSS class selector. -/
def isCssCont (c : Char) : Bool := c.isAlpha || c.isDigit || c = '_' || c = '-'

/-- One match of the CSS class-selector pattern: a dot then an identifier. -/
def cssClassStep : List Char → Option (String × List Char)
  | '.' :: c :: cs =>
    if isCssStart c then
      some (String.mk (c :: cs.takeWhile isCssCont), cs.dropWhile isCssCont)
    else none
  | _ => none

/-- `ProjectAnalyzer._extract_css_classes`: the matches, deduplicated by a
set whose enumeration order is the parameter `e`. -/
def extract_css_classes (e : List String → List String) (content : String) :
    List String :=
  e (findAllMatches cssClassStep content.data)

/-! ### Aspect analyzers (`_generate_detailed_analysis` and helpers) -/

/-- The non-exclusive priority buckets of `_generate_detailed_analysis`:
an if-elif chain of substring tests over the lowercased filename. -/
inductive FileBucket where
  | frontendB | backendB | databaseB | configB | other
deriving DecidableEq

/-- The bucket of one file, evaluated in source order (first match wins). -/
def bucketOf (name : String) : FileBucket :=
  let fn := (toLowerStr name).data
  if [".jsx", ".tsx", ".vue", ".html", ".css", ".scss"].any
      (fun ext => containsSub fn ext.data) then .frontendB
  else if [".py", ".java", ".php", ".rb", ".go", ".cs"].any
      (fun ext => containsSub fn ext.data) then .backendB
  else if ([".sql", ".db"].any (fun ext => containsSub fn ext.data)) ||
      containsSub fn "database".data || containsSub fn "model".data then .databaseB
  else if [".json", ".yaml", ".yml", ".toml", ".ini", ".env"].any
      (fun ext => containsSub fn ext.data) then .configB
  else .other

/-- The frontend bucket, in input order. -/
def frontendFiles (files : List FileRec) : List FileRec :=
  files.filter (fun f => bucketOf f.name = .frontendB)

/-- The backend bucket, in input order. -/
def backendFiles (files : List FileRec) : List FileRec :=
  files.filter (fun f => bucketOf f.name = .backendB)

/-- The database bucket, in input order. -/
def databaseFiles (files : List FileRec) : List FileRec :=
  files.filter (fun f => bucketOf f.name = .databaseB)

/-- `ProjectAnalyzer._identify_file_purpose` (the content argument is
never read). -/
def identify_file_purpose (filename : String) : String :=
  let fn := toLowerStr filename
  if strContains fn "package.json" then "Node.js package configuration"
  else if strContains fn "requirements.txt" then "Python dependencies"
  else if strContains fn "main" then "Application entry point"
  else if strContains fn "index" then "Index/entry file"
  else if strContains fn "app" then "Main application file"
  else if strContains fn "config" then "Configuration file"
  else "Source file"

/-- `ProjectAnalyzer._determine_project_type`. -/
def determine_project_type (frameworks : List String)
    (languages : List (String × Nat)) : String :=
  if ["React", "Vue", "Angular"].any frameworks.contains then
    "Frontend Application"
  else if ["Django", "Flask", "FastAPI", "Express"].any frameworks.contains then
    "Backend API"
  else if (languages.any fun p => p.1 == "HTML") &&
      (languages.any fun p => p.1 == "CSS") then "Web Application"
  else "Software Project"

/-- The complexity indicators of `_get_complexity_indicators`. -/
structure ComplexityIndicators where
  total_files : Nat
  total_lines : Nat
  avg_lines_per_file : Nat
  complexity_level : String
deriving DecidableEq

/-- `ProjectAnalyzer._get_complexity_indicators`. -/
def get_complexity_indicators (files : List FileRec) : ComplexityIndicators :=
  let total_files := files.length
  let total_lines := (files.map fun f => countLines f.content).sum
  { total_files := total_files
    total_lines := total_lines
    avg_lines_per_file := if total_files > 0 then total_lines / total_files else 0
    complexity_level :=
      if total_lines < 1000 then "Low"
      else if total_lines < 5000 then "Medium" else "High" }

/-- A key-file entry of the overview aspect. -/
structure KeyFile where
  name : String
  purpose : String
  lines : Nat
deriving DecidableEq

/-- The overview aspect. -/
structure OverviewAspect where
  key_files : List KeyFile
  entry_points : List String
  project_type : String
  complexity_indicators : ComplexityIndicators
deriving DecidableEq

/-- `ProjectAnalyzer._analyze_overview`: scans the whole file list. -/
def analyze_overview (files : List FileRec) (frameworks : List String)
    (languages : List (String × Nat)) : OverviewAspect :=
  { key_files :=
      files.filterMap fun f =>
        if ["main", "index", "app", "server", "package.json",
            "requirements.txt"].any (fun key => strContains (toLowerStr f.name) key)
        then some ⟨f.name, identify_file_purpose f.name, countLines f.content⟩
        else none
    entry_points :=
      (files.filter fun f =>
        strContains f.content "main(" || strContains f.content "if __name__" ||
        strContains f.content "app.listen").map (fun f => f.name)
    project_type := determine_project_type frameworks languages
    complexity_indicators := get_complexity_indicators files }

/-- A component entry of the frontend aspect. -/
structure ComponentInfo where
  name : String
  ctype : String
  exports : List String
  imports : List String
deriving DecidableEq

/-- A stylesheet entry of the frontend aspect. -/
structure StyleInfo where
  name : String
  stype : String
  classes : List String
deriving DecidableEq

/-- The frontend aspect. -/
structure FrontendAspect where
  components : List ComponentInfo
  styles : List StyleInfo
  routing_files : List String
  state_management : List String
  frameworks_used : List String
deriving DecidableEq

/-- `ProjectAnalyzer._analyze_frontend`: scans only the frontend bucket;
the frameworks summary comes from the globally detected set. -/
def analyze_frontend (e : List String → List String)
    (frontend_files : List FileRec) (frameworks : List String) : FrontendAspect :=
  { components :=
      (frontend_files.filter fun f =>
        [".jsx", ".tsx", ".vue"].any fun ext => strContains f.name ext).map
        fun f => ⟨f.name, "Component", extract_exports f.content,
                  extract_imports f.content⟩
    styles :=
      (frontend_files.filter fun f =>
        [".css", ".scss", ".sass"].any fun ext => strContains f.name ext).map
        fun f => ⟨f.name, "Stylesheet", extract_css_classes e f.content⟩
    routing_files :=
      (frontend_files.filter fun f =>
        strContains (toLowerStr f.content) "router" ||
        strContains (toLowerStr f.content) "route").map (fun f => f.name)
    state_management :=
      (frontend_files.filter fun f =>
        ["usestate", "redux", "vuex", "context"].any fun pat =>
          strContains (toLowerStr f.content) pat).map (fun f => f.name)
    frameworks_used :=
      e (frameworks.filter fun x => ["React", "Vue", "Angular"].contains x) }

/-- An API-file entry of the backend aspect. -/
structure ApiFile where
  file : String
  endpoints : List Endpoint
deriving DecidableEq

/-- A models entry of the backend aspect. -/
structure ModelFile where
  file : String
  models : List String
deriving DecidableEq

/-- The backend aspect. -/
structure BackendAspect where
  api_files : List ApiFile
  models : List ModelFile
  middleware : List String
  frameworks_used : List String
  databases_used : List String
deriving DecidableEq

/-- `ProjectAnalyzer._analyze_backend`: scans only the backend bucket; the
framework and database summaries come from the globally detected sets. -/
def analyze_backend (e : List String → List String)
    (backend_files : List FileRec) (frameworks databases : List String) :
    BackendAspect :=
  { api_files :=
      backend_files.filterMap fun f =>
        let endpoints := extract_api_endpoints f.content
        if endpoints.isEmpty then none else some ⟨f.name, endpoints⟩
    models :=
      (backend_files.filter fun f =>
        strContains (toLowerStr f.name) "model" ||
        strContains (toLowerStr f.name) "schema").map
        fun f => ⟨f.name, extract_models f.content⟩
    middleware :=
      (backend_files.filter fun f =>
        strContains (toLowerStr f.content) "middleware" ||
        strContains f.content "@app.middleware").map (fun f => f.name)
    frameworks_used :=
      e (frameworks.filter fun x =>
        ["Django", "Flask", "FastAPI", "Express", "Spring"].contains x)
    databases_used := e databases }

/-- A schema entry of the database aspect. -/
structure SchemaFile where
  file : String
  tables : List String
deriving DecidableEq

/-- The database aspect. -/
structure DatabaseAspect where
  schemas : List SchemaFile
  migrations : List String
  databases_detected : List String
deriving DecidableEq

/-- `ProjectAnalyzer._analyze_database`: scans only the database bucket. -/
def analyze_database (e : List String → List String)
    (database_files : List FileRec) (databases : List String) : DatabaseAspect :=
  { schemas :=
      (database_files.filter fun f => strContains f.name ".sql").map
        fun f => ⟨f.name, extract_sql_tables f.content⟩
    migrations :=
      (database_files.filter fun f =>
        strContains (toLowerStr f.name) "migration").map (fun f => f.name)
    databases_detected := e databases }

/-- The architecture aspect. -/
structure ArchitectureAspect where
  patterns : List String
  layers : List String
  separation_of_concerns : Bool
deriving DecidableEq

/-- The per-file layer labels of `_analyze_architecture`, an if-elif chain
over the lowercased filename yielding at most one label per file. -/
def layerOf (name : String) : List String :=
  let fn := toLowerStr name
  if strContains fn "controller" then ["Controller Layer"]
  else if strContains fn "service" then ["Service Layer"]
  else if strContains fn "model" || strContains fn "entity" then ["Data Layer"]
  else []

/-- `ProjectAnalyzer._analyze_architecture`: scans the WHOLE file list (the
source passes `file_contents`, not a bucket). -/
def analyze_architecture (e : List String → List String)
    (files : List FileRec) : ArchitectureAspect :=
  let pats :=
    (if files.any fun f => strContains (toLowerStr f.name) "controller"
     then ["MVC"] else []) ++
    (if files.any fun f => strContains (toLowerStr f.name) "service"
     then ["Service Layer"] else []) ++
    (if files.any fun f => strContains (toLowerStr f.name) "repository"
     then ["Repository Pattern"] else [])
  let layers := files.foldl (fun acc f => acc ++ layerOf f.name) []
  { patterns := e pats
    layers := e layers
    separation_of_concerns := layers.dedup.length > 1 }

/-- The component-hierarchy summary of the flow aspect. -/
structure ComponentHierarchy where
  total_components : Nat
  component_files : List String
deriving DecidableEq

/-- The flow aspect. -/
structure FlowAspect where
  data_flow : List String
  request_flow : List String
  component_hierarchy : ComponentHierarchy
deriving DecidableEq

/-- The per-file tags of `_analyze_data_flow`, in append order. -/
def dataFlowTags (content : String) : List String :=
  (if strContains content "fetch(" || strContains content "axios"
   then ["HTTP API calls"] else []) ++
  (if strContains content "useState" || strContains content "state"
   then ["State management"] else []) ++
  (if strContains content "props" then ["Component props"] else [])

/-- The per-file tags of `_analyze_request_flow`, in append order. -/
def requestFlowTags (content : String) : List String :=
  (if strContains content "@app.route" || strContains content "@router"
   then ["Route handling"] else []) ++
  (if strContains (toLowerStr content) "middleware"
   then ["Middleware processing"] else []) ++
  (if strContains (toLowerStr content) "authenticate" ||
      strContains (toLowerStr content) "auth"
   then ["Authentication"] else [])

/-- `ProjectAnalyzer._analyze_flow`: scans the WHOLE file list. -/
def analyze_flow (e : List String → List String) (files : List FileRec) :
    FlowAspect :=
  let comps :=
    (files.filter fun f =>
      [".jsx", ".tsx", ".vue"].any fun ext => strContains f.name ext).map
      (fun f => f.name)
  { data_flow := e (files.foldl (fun acc f => acc ++ dataFlowTags f.content) [])
    request_flow :=
      e (files.foldl (fun acc f => acc ++ requestFlowTags f.content) [])
    component_hierarchy := ⟨comps.length, comps.take 10⟩ }

/-- The six named sub-records of the detailed analysis. -/
structure DetailedAnalysis where
  overview : OverviewAspect
  frontend : FrontendAspect
  backend : BackendAspect
  database : DatabaseAspect
  architecture : ArchitectureAspect
  flow : FlowAspect
deriving DecidableEq

/-- `ProjectAnalyzer._generate_detailed_analysis`: buckets the files, then
runs the six analyzers; overview, architecture and flow receive the whole
file list, the other three receive their buckets. -/
def generate_detailed_analysis (e : List String → List String)
    (files : List FileRec) (languages : List (String × Nat))
    (frameworks databases : List String) : DetailedAnalysis :=
  { overview := analyze_overview files frameworks languages
    frontend := analyze_frontend e (frontendFiles files) frameworks
    backend := analyze_backend e (backendFiles files) frameworks databases
    database := analyze_database e (databaseFiles files) databases
    architecture := analyze_architecture e files
    flow := analyze_flow e files }

/-! ### Summary, result object and the pipeline -/

/-- Python rendering of an optional string inside an f-string: the value
None prints as the four-letter word None. -/
def optStr : Option String → String
  | none => "None"
  | some s => s

/-- `ProjectAnalyzer._generate_summary`.  Note that the framework clause is
emitted whenever the stored framework value differs from the literal
fallback text, which is always the case — also when the value is None. -/
def generate_summary (main_language framework : Option String)
    (architecture_type : String) (files_analyzed : Nat)
    (technologies : List String) (complexity_score : ℚ) : String :=
  let s := "This is a " ++ toLowerStr architecture_type ++
    " project primarily written in " ++ optStr main_language
  let s :=
    if optStr framework ≠ "No specific framework" then
      s ++ " using the " ++ optStr framework ++ " framework"
    else s
  let s := s ++ ". The project contains " ++ toString files_analyzed ++ " files"
  let s :=
    if !technologies.isEmpty then
      s ++ " and uses technologies including " ++
        String.intercalate ", " (technologies.take 5)
    else s
  if complexity_score < 2 then
    s ++ ". This appears to be a small to medium-sized project."
  else if complexity_score < 5 then
    s ++ ". This appears to be a medium-sized project."
  else
    s ++ ". This appears to be a large and complex project."

/-- The analysis result assembled by `analyze_files` (the `context`
bookkeeping dict, which merely copies inputs and intermediate values, is
not modelled; no verified property mentions it). -/
structure AnalysisResult where
  summary : String
  technologies : List String
  structureListing : String
  files_analyzed : Nat
  main_language : Option String
  framework : Option String
  architecture_type : Option String
  complexity_score : ℚ
  detailed_analysis : DetailedAnalysis
deriving DecidableEq

/-- `ProjectAnalyzer.analyze_files`.  The parameter `e` supplies the
iteration order of every Python set the source materialises with
`list(...)`; its hash-seed dependence is a fact of the source, see
`validEnum`. -/
def analyze_files (e : List String → List String) (files : List FileRec) :
    AnalysisResult :=
  let st := scanFiles files
  let main_language :=
    if st.languages.isEmpty then none else maxByCount st.languages
  let framework :=
    if st.frameworks.isEmpty then none else (e st.frameworks).head?
  let technologies :=
    e ((st.languages.map Prod.fst) ++ e st.frameworks ++ e st.databases)
  let complexity_score : ℚ := min ((st.totalLines : ℚ) / 1000) 10
  let architecture_type := determine_architecture st.frameworks st.languages
  { summary :=
      generate_summary main_language framework architecture_type files.length
        technologies complexity_score
    technologies := technologies
    structureListing := String.intercalate "\n" st.fileStructure
    files_analyzed := files.length
    main_language := main_language
    framework := framework
    architecture_type := some architecture_type
    complexity_score := complexity_score
    detailed_analysis :=
      generate_detailed_analysis e files st.languages st.frameworks st.databases }

/-- The one user-facing failure of the pipeline. -/
inductive AnalyzeError where
  | invalidInput
deriving DecidableEq

/-- The `analyze-files` route handler of `backend/main.py`: an empty
upload list is rejected with the no-files-provided error before any file
is read or analyzed; otherwise the analyzer runs and its result is
returned. -/
def analyze_files_endpoint (e : List String → List String)
    (files : List FileRec) : Except AnalyzeError AnalysisResult :=
  if files.isEmpty then .error .invalidInput
  else .ok (analyze_files e files)

/-- A valid materialisation of a Python set: `list(s)` enumerates every
member exactly once, in an order determined by the per-process string hash
seed.  Members are handed over as a list in first-seen order (possibly with
duplicates when the source unions collections); a valid enumeration is any
permutation of the distinct members. -/
def validEnum (e : List String → List String) : Prop :=
  ∀ m : List String, (e m).Perm m.dedup

/-- Deduplication is one valid enumeration. -/
theorem validEnum_dedup : validEnum (fun m => m.dedup) :=
  fun _ => List.Perm.refl _

/-- Reversed deduplication is another valid enumeration. -/
theorem validEnum_revDedup : validEnum (fun m => m.dedup.reverse) :=
  fun m => (List.reverse_perm m.dedup)

/-! ### Concrete inputs used by the scenario theorems -/

/-- A one-character string holding the single quote. -/
def sqS : String := String.mk [sqCh]

/-- Scenario file: a React component importing react. -/
def fAppJsx : FileRec :=
  ⟨"App.jsx", "import React from " ++ sqS ++ "react" ++ sqS⟩

/-- Scenario file: a Flask server. -/
def fServerFlask : FileRec := ⟨"server.py", "from flask import Flask"⟩

/-- Scenario file: the FastAPI server of spec scenario 1. -/
def serverPy : FileRec :=
  ⟨"server.py",
   "from fastapi import FastAPI\n@app.get(" ++ sqS ++ "/users" ++ sqS ++ ")"⟩

/-- A file of unknown extension and empty content. -/
def fUnknownEmpty : FileRec := ⟨"a.xyz", ""⟩

/-- A file that matches none of the four buckets but whose name mentions a
controller. -/
def fCtrlStray : FileRec := ⟨"controller.xyz", ""⟩

/-- A file that matches none of the four buckets but whose content matches
the React signature. -/
def fReactStray : FileRec :=
  ⟨"notes.xyz", "import React from " ++ sqS ++ "react" ++ sqS⟩

/-! ### Lemmas about the aggregation fold -/

theorem scanFold_totalLines (files : List FileRec) : ∀ st : ScanState,
    (files.foldl scanFile st).totalLines =
      st.totalLines + (files.map fun f => countLines f.content).sum := by
  induction files with
  | nil => intro st; simp
  | cons f fs ih =>
    intro st
    simp only [List.foldl_cons, ih, scanFile, List.map_cons, List.sum_cons]
    omega

theorem scanFold_fileStructure (files : List FileRec) : ∀ st : ScanState,
    (files.foldl scanFile st).fileStructure =
      st.fileStructure ++ files.map structureEntry := by
  induction files with
  | nil => intro st; simp
  | cons f fs ih =>
    intro st
    simp [List.foldl_cons, ih, scanFile]

theorem scanFold_languages (files : List FileRec) : ∀ st : ScanState,
    (files.foldl scanFile st).languages = files.foldl langStep st.languages := by
  induction files with
  | nil => intro st; simp
  | cons f fs ih =>
    intro st
    simp only [List.foldl_cons, ih]
    rfl

theorem scanFold_frameworks (files : List FileRec) : ∀ st : ScanState,
    (files.foldl scanFile st).frameworks =
      files.foldl (fun a f => detectStep framework_patterns a f.content.data)
        st.frameworks := by
  induction files with
  | nil => intro st; simp
  | cons f fs ih =>
    intro st
    simp only [List.foldl_cons, ih]
    rfl

theorem scanFold_databases (files : List FileRec) : ∀ st : ScanState,
    (files.foldl scanFile st).databases =
      files.foldl (fun a f => detectStep database_patterns a f.content.data)
        st.databases := by
  induction files with
  | nil => intro st; simp
  | cons f fs ih =>
    intro st
    simp only [List.foldl_cons, ih]
    rfl

/-! ### Lemmas about the histogram update -/

theorem bump_sum (k : String) : ∀ l : List (String × Nat),
    ((bump l k).map Prod.snd).sum = ((l.map Prod.snd).sum) + 1 := by
  intro l
  induction l with
  | nil => simp [bump]
  | cons p rest ih =>
    by_cases h : p.1 = k
    · simp only [bump, if_pos h, List.map_cons, List.sum_cons]
      omega
    · simp only [bump, if_neg h, List.map_cons, List.sum_cons, ih]
      omega

theorem bump_pos (k : String) : ∀ l : List (String × Nat),
    (∀ p ∈ l, 1 ≤ p.2) → ∀ p ∈ bump l k, 1 ≤ p.2 := by
  intro l
  induction l with
  | nil =>
    intro _ p hp
    simp [bump] at hp
    simp [hp]
  | cons q rest ih =>
    intro hall p hp
    by_cases h : q.1 = k
    · simp only [bump, if_pos h] at hp
      rcases List.mem_cons.mp hp with rfl | hp
      · simp
      · exact hall p (List.mem_cons_of_mem _ hp)
    · simp only [bump, if_neg h] at hp
      rcases List.mem_cons.mp hp with rfl | hp
      · exact hall _ (List.mem_cons_self _ _)
      · exact ih (fun r hr => hall r (List.mem_cons_of_mem _ hr)) p hp

theorem bump_keys (k : String) : ∀ l : List (String × Nat),
    (bump l k).map Prod.fst =
      if (l.map Prod.fst).contains k then l.map Prod.fst
      else l.map Prod.fst ++ [k] := by
  intro l
  induction l with
  | nil => simp [bump]
  | cons q rest ih =>
    by_cases h : q.1 = k
    · have ht : ((q.1 :: rest.map Prod.fst).contains k) = true := by
        simp [List.contains_cons, h]
      simp [bump, h, List.map_cons, ht]
    · have hk : ((q.1 :: rest.map Prod.fst).contains k) =
          (rest.map Prod.fst).contains k := by
        simp [List.contains_cons, beq_iff_eq, (Ne.symm h : k ≠ q.1)]
      simp only [bump, if_neg h, List.map_cons, ih, hk]
      by_cases hc : (rest.map Prod.fst).contains k = true
      · rw [if_pos hc, if_pos hc]
      · rw [if_neg hc, if_neg hc, List.cons_append]

theorem bump_keys_mem (key k : String) (l : List (String × Nat)) :
    k ∈ (bump l key).map Prod.fst ↔ k ∈ l.map Prod.fst ∨ k = key := by
  rw [bump_keys]
  by_cases hc : (l.map Prod.fst).contains key = true
  · rw [if_pos hc]
    have hm : key ∈ l.map Prod.fst := List.elem_iff.mp hc
    constructor
    · exact Or.inl
    · rintro (h | rfl)
      · exact h
      · exact hm
  · rw [if_neg hc]
    simp [List.mem_append]

theorem langFold_sum (files : List FileRec) : ∀ init : List (String × Nat),
    ((files.foldl langStep init).map Prod.snd).sum =
      (init.map Prod.snd).sum +
        (files.filter fun f => langOf f.name != "Unknown").length := by
  induction files with
  | nil => intro init; simp
  | cons f fs ih =>
    intro init
    simp only [List.foldl_cons, List.filter_cons, langStep]
    cases hb : (langOf f.name != "Unknown") with
    | false =>
      rw [if_neg (by simp [hb])]
      simp [ih]
    | true =>
      rw [if_pos (by simp [hb])]
      simp [ih, bump_sum]
      omega

theorem langFold_pos (files : List FileRec) : ∀ init : List (String × Nat),
    (∀ p ∈ init, 1 ≤ p.2) → ∀ p ∈ files.foldl langStep init, 1 ≤ p.2 := by
  induction files with
  | nil => intro init h; simpa using h
  | cons f fs ih =>
    intro init h
    simp only [List.foldl_cons, langStep]
    cases hb : (langOf f.name != "Unknown") with
    | false =>
      rw [if_neg (by simp [hb])]
      exact ih init h
    | true =>
      rw [if_pos (by simp [hb])]
      exact ih _ (bump_pos _ init h)

theorem langFold_keys_mem (files : List FileRec) :
    ∀ (init : List (String × Nat)) (k : String),
    k ∈ (files.foldl langStep init).map Prod.fst ↔
      k ∈ init.map Prod.fst ∨
        ∃ f ∈ files, langOf f.name = k ∧ langOf f.name ≠ "Unknown" := by
  induction files with
  | nil => intro init k; simp
  | cons f fs ih =>
    intro init k
    simp only [List.foldl_cons, langStep]
    cases hb : (langOf f.name != "Unknown") with
    | false =>
      have hu : langOf f.name = "Unknown" := by
        exact bne_eq_false_iff_eq.mp hb
      rw [if_neg (by simp [hb]), ih]
      constructor
      · rintro (h | ⟨g, hg, hgk⟩)
        · exact Or.inl h
        · exact Or.inr ⟨g, List.mem_cons_of_mem _ hg, hgk⟩
      · rintro (h | ⟨g, hg, hgk, hgu⟩)
        · exact Or.inl h
        · rcases List.mem_cons.mp hg with rfl | hg
          · exact absurd hu hgu
          · exact Or.inr ⟨g, hg, hgk, hgu⟩
    | true =>
      have hu : langOf f.name ≠ "Unknown" := by
        have := bne_iff_ne.mp hb
        exact this
      rw [if_pos (by simp [hb]), ih]
      rw [bump_keys_mem]
      constructor
      · rintro (⟨h | rfl⟩ | ⟨g, hg, hgk⟩)
        · exact Or.inl h
        · exact Or.inr ⟨f, List.mem_cons_self _ _, rfl, hu⟩
        · exact Or.inr ⟨g, List.mem_cons_of_mem _ hg, hgk⟩
      · rintro (h | ⟨g, hg, hgk, hgu⟩)
        · exact Or.inl (Or.inl h)
        · rcases List.mem_cons.mp hg with rfl | hg
          · exact Or.inl (Or.inr hgk.symm)
          · exact Or.inr ⟨g, hg, hgk, hgu⟩

/-! ### The max-selection of CPython max over the histogram -/

theorem foldl_maxsel (rest : List (String × Nat)) : ∀ p : String × Nat,
    (∀ q ∈ rest, q.2 ≤ (rest.foldl (fun b q => if q.2 > b.2 then q else b) p).2) ∧
    p.2 ≤ (rest.foldl (fun b q => if q.2 > b.2 then q else b) p).2 ∧
    ((rest.foldl (fun b q => if q.2 > b.2 then q else b) p) = p ∨
      ∃ i, rest.get? i = some (rest.foldl (fun b q => if q.2 > b.2 then q else b) p) ∧
        p.2 < (rest.foldl (fun b q => if q.2 > b.2 then q else b) p).2 ∧
        ∀ j, j < i → ∀ q, rest.get? j = some q →
          q.2 < (rest.foldl (fun b q => if q.2 > b.2 then q else b) p).2) := by
  induction rest with
  | nil => intro p; exact ⟨by simp, le_refl _, Or.inl rfl⟩
  | cons r rs ih =>
    intro p
    simp only [List.foldl_cons]
    by_cases h : r.2 > p.2
    · rw [if_pos h]
      obtain ⟨h1, h2, h3⟩ := ih r
      refine ⟨?_, ?_, ?_⟩
      · intro q hq
        rcases List.mem_cons.mp hq with rfl | hq
        · exact h2
        · exact h1 q hq
      · exact le_of_lt (lt_of_lt_of_le h h2)
      · rcases h3 with he | ⟨i, hi, hlt, hpre⟩
        · refine Or.inr ⟨0, ?_, ?_, ?_⟩
          · rw [he]; rfl
          · rw [he]; exact h
          · intro j hj; omega
        · refine Or.inr ⟨i + 1, ?_, ?_, ?_⟩
          · rw [List.get?_cons_succ]; exact hi
          · exact lt_trans h hlt
          · intro j hj q hq
            cases j with
            | zero =>
              rw [List.get?_cons_zero] at hq
              injection hq with hq
              rw [← hq]
              exact hlt
            | succ j =>
              rw [List.get?_cons_succ] at hq
              exact hpre j (by omega) q hq
    · rw [if_neg h]
      obtain ⟨h1, h2, h3⟩ := ih p
      refine ⟨?_, h2, ?_⟩
      · intro q hq
        rcases List.mem_cons.mp hq with rfl | hq
        · exact le_trans (Nat.le_of_not_lt h) h2
        · exact h1 q hq
      · rcases h3 with he | ⟨i, hi, hlt, hpre⟩
        · exact Or.inl he
        · refine Or.inr ⟨i + 1, ?_, hlt, ?_⟩
          · rw [List.get?_cons_succ]; exact hi
          · intro j hj q hq
            cases j with
            | zero =>
              rw [List.get?_cons_zero] at hq
              injection hq with hq
              rw [← hq]
              exact lt_of_le_of_lt (Nat.le_of_not_lt h) hlt
            | succ j =>
              rw [List.get?_cons_succ] at hq
              exact hpre j (by omega) q hq

/-! ### Membership in the detected technology collections -/

theorem detectOne_mem (acc : List String) (cs : List Char)
    (p : String × List (List RTok)) (x : String) :
    x ∈ (if (p.2.any fun pat => searchAt pat cs) && !acc.contains p.1
         then acc ++ [p.1] else acc) ↔
      x ∈ acc ∨ (x = p.1 ∧ (p.2.any fun pat => searchAt pat cs) = true) := by
  by_cases hm : (p.2.any fun pat => searchAt pat cs) = true
  · by_cases hc : acc.contains p.1 = true
    · have hns : ¬(((p.2.any fun pat => searchAt pat cs) &&
          !acc.contains p.1) = true) := by
        rw [hm, hc]
        simp
      rw [if_neg hns]
      constructor
      · exact Or.inl
      · rintro (hx | ⟨rfl, _⟩)
        · exact hx
        · exact List.elem_iff.mp hc
    · have hcf : acc.contains p.1 = false := by
        cases h2 : acc.contains p.1
        · rfl
        · exact absurd h2 hc
      have hys : (((p.2.any fun pat => searchAt pat cs) &&
          !acc.contains p.1) = true) := by
        rw [hm, hcf]
        rfl
      rw [if_pos hys]
      simp [List.mem_append, hm]
  · have hmf : (p.2.any fun pat => searchAt pat cs) = false := by
      cases h2 : (p.2.any fun pat => searchAt pat cs)
      · rfl
      · exact absurd h2 hm
    have hns : ¬(((p.2.any fun pat => searchAt pat cs) &&
        !acc.contains p.1) = true) := by
      rw [hmf]
      simp
    rw [if_neg hns]
    simp [hmf]

theorem detectStep_mem (tbl : List (String × List (List RTok))) :
    ∀ (acc : List String) (cs : List Char) (x : String),
    x ∈ detectStep tbl acc cs ↔
      x ∈ acc ∨ ∃ ps, (x, ps) ∈ tbl ∧ (ps.any fun pat => searchAt pat cs) = true := by
  induction tbl with
  | nil => intro acc cs x; simp [detectStep]
  | cons p tb ih =>
    intro acc cs x
    have hstep : detectStep (p :: tb) acc cs =
        detectStep tb
          (if (p.2.any fun pat => searchAt pat cs) && !acc.contains p.1 then
            acc ++ [p.1] else acc) cs := rfl
    rw [hstep, ih, detectOne_mem]
    constructor
    · rintro ((hx | ⟨rfl, hpm⟩) | ⟨ps, hps, hpm⟩)
      · exact Or.inl hx
      · exact Or.inr ⟨p.2, by rw [Prod.mk.eta]; exact List.mem_cons_self _ _, hpm⟩
      · exact Or.inr ⟨ps, List.mem_cons_of_mem _ hps, hpm⟩
    · rintro (hx | ⟨ps, hps, hpm⟩)
      · exact Or.inl (Or.inl hx)
      · rcases List.mem_cons.mp hps with hhd | htl
        · have hx1 : x = p.1 := congrArg Prod.fst hhd
          have hps2 : ps = p.2 := congrArg Prod.snd hhd
          exact Or.inl (Or.inr ⟨hx1, by rw [← hps2]; exact hpm⟩)
        · exact Or.inr ⟨ps, htl, hpm⟩

theorem detectFold_mem (tbl : List (String × List (List RTok)))
    (files : List FileRec) : ∀ (acc : List String) (x : String),
    x ∈ files.foldl (fun a f => detectStep tbl a f.content.data) acc ↔
      x ∈ acc ∨ ∃ f ∈ files, ∃ ps, (x, ps) ∈ tbl ∧
        (ps.any fun pat => searchAt pat f.content.data) = true := by
  induction files with
  | nil => intro acc x; simp
  | cons f fs ih =>
    intro acc x
    simp only [List.foldl_cons]
    rw [ih, detectStep_mem]
    constructor
    · rintro ((hx | ⟨ps, hps, hpm⟩) | ⟨g, hg, hps⟩)
      · exact Or.inl hx
      · exact Or.inr ⟨f, List.mem_cons_self _ _, ps, hps, hpm⟩
      · exact Or.inr ⟨g, List.mem_cons_of_mem _ hg, hps⟩
    · rintro (hx | ⟨g, hg, hps⟩)
      · exact Or.inl (Or.inl hx)
      · rcases List.mem_cons.mp hg with rfl | hg
        · exact Or.inl (Or.inr hps)
        · exact Or.inr ⟨g, hg, hps⟩

/-! ### Helper lemmas assembled by the claim theorems -/

theorem scanLanguages_sum (files : List FileRec) :
    (((scanFiles files).languages).map Prod.snd).sum =
      (files.filter fun f => langOf f.name != "Unknown").length := by
  have h : (scanFiles files).languages = files.foldl langStep [] := by
    rw [scanFiles, scanFold_languages]; rfl
  rw [h, langFold_sum]
  simp

theorem scanLanguages_pos (files : List FileRec) :
    ∀ p ∈ (scanFiles files).languages, 1 ≤ p.2 := by
  have h : (scanFiles files).languages = files.foldl langStep [] := by
    rw [scanFiles, scanFold_languages]; rfl
  rw [h]
  exact langFold_pos files [] (by simp)

theorem scan_languages_nil (files : List FileRec) :
    (scanFiles files).languages = [] ↔
      ∀ f ∈ files, langOf f.name = "Unknown" := by
  constructor
  · intro h f hf
    have hsum := scanLanguages_sum files
    rw [h] at hsum
    simp at hsum
    by_contra hne
    have hmem : f ∈ files.filter fun g => langOf g.name != "Unknown" :=
      List.mem_filter.mpr ⟨hf, by simp [hne]⟩
    rw [List.length_eq_zero.mp hsum.symm] at hmem
    simp at hmem
  · intro h
    rcases hl : (scanFiles files).languages with _ | ⟨p, rest⟩
    · rfl
    · exfalso
      have hsum := scanLanguages_sum files
      have hfil : (files.filter fun g => langOf g.name != "Unknown") = [] := by
        rw [List.eq_nil_iff_forall_not_mem]
        intro g hg
        have hm := List.mem_filter.mp hg
        exact absurd (h g hm.1) (by simpa using hm.2)
      rw [hl, hfil] at hsum
      have hpos := scanLanguages_pos files
      rw [hl] at hpos
      have := hpos p (List.mem_cons_self _ _)
      simp at hsum
      omega

theorem scan_frameworks_mem (files : List FileRec) (x : String) :
    x ∈ (scanFiles files).frameworks ↔
      ∃ f ∈ files, ∃ ps, (x, ps) ∈ framework_patterns ∧
        (ps.any fun pat => searchAt pat f.content.data) = true := by
  have h : (scanFiles files).frameworks =
      files.foldl (fun a f => detectStep framework_patterns a f.content.data) [] := by
    rw [scanFiles, scanFold_frameworks]; rfl
  rw [h, detectFold_mem]
  simp

theorem scan_languages_hasKey (files : List FileRec) (k : String) :
    ((scanFiles files).languages.any fun p => p.1 == k) = true ↔
      ∃ f ∈ files, langOf f.name = k ∧ langOf f.name ≠ "Unknown" := by
  have h1 : ((scanFiles files).languages.any fun p => p.1 == k) = true ↔
      k ∈ (scanFiles files).languages.map Prod.fst := by
    rw [List.any_eq_true, List.mem_map]
    constructor
    · rintro ⟨p, hp, hk⟩
      exact ⟨p, hp, by simpa using hk⟩
    · rintro ⟨p, hp, hk⟩
      exact ⟨p, hp, by simpa using hk⟩
  have h2 : (scanFiles files).languages = files.foldl langStep [] := by
    rw [scanFiles, scanFold_languages]; rfl
  rw [h1, h2, langFold_keys_mem]
  simp

theorem bool_eq_of_iff {a b : Bool} (h : a = true ↔ b = true) : a = b := by
  cases a <;> cases b
  · rfl
  · exfalso; simp at h
  · exfalso; simp at h
  · rfl

theorem contains_eq_of_mem_iff {l₁ l₂ : List String} (x : String)
    (h : x ∈ l₁ ↔ x ∈ l₂) : l₁.contains x = l₂.contains x := by
  apply bool_eq_of_iff
  constructor
  · intro hc
    exact List.elem_iff.mpr (h.mp (List.elem_iff.mp hc))
  · intro hc
    exact List.elem_iff.mpr (h.mpr (List.elem_iff.mp hc))

theorem hasFrontendFw_congr {l₁ l₂ : List String} (h : ∀ x, x ∈ l₁ ↔ x ∈ l₂) :
    hasFrontendFw l₁ = hasFrontendFw l₂ := by
  simp only [hasFrontendFw, List.any_cons, List.any_nil]
  rw [contains_eq_of_mem_iff "React" (h _), contains_eq_of_mem_iff "Vue" (h _),
      contains_eq_of_mem_iff "Angular" (h _)]

theorem hasBackendFw_congr {l₁ l₂ : List String} (h : ∀ x, x ∈ l₁ ↔ x ∈ l₂) :
    hasBackendFw l₁ = hasBackendFw l₂ := by
  simp only [hasBackendFw, List.any_cons, List.any_nil]
  rw [contains_eq_of_mem_iff "Express" (h _), contains_eq_of_mem_iff "Django" (h _),
      contains_eq_of_mem_iff "Flask" (h _), contains_eq_of_mem_iff "FastAPI" (h _),
      contains_eq_of_mem_iff "Spring" (h _), contains_eq_of_mem_iff "Laravel" (h _),
      contains_eq_of_mem_iff "Rails" (h _)]

theorem splitOnCh_ne_nil (sep : Char) (cs : List Char) : splitOnCh sep cs ≠ [] := by
  cases cs with
  | nil => simp [splitOnCh]
  | cons c cs =>
    by_cases h : c = sep
    · simp [splitOnCh, h]
    · simp only [splitOnCh, if_neg h]
      cases splitOnCh sep cs <;> simp

theorem splitOnCh_length (sep : Char) : ∀ cs : List Char,
    (splitOnCh sep cs).length = cs.count sep + 1 := by
  intro cs
  induction cs with
  | nil => simp [splitOnCh]
  | cons c cs ih =>
    by_cases h : c = sep
    · subst h
      simp [splitOnCh, List.count_cons, ih]
    · rcases hs : splitOnCh sep cs with _ | ⟨s, ss⟩
      · exact absurd hs (splitOnCh_ne_nil sep cs)
      · rw [hs] at ih
        simp only [splitOnCh, if_neg h, hs, List.length_cons] at ih ⊢
        have hcc : (c :: cs).count sep = cs.count sep := by
          simp [List.count_cons, h]
        rw [hcc]
        exact ih

/-- The first-seen order of distinct values in a list: the formal rendering
of the phrase first encountered while scanning in input order. -/
def firstSeen (l : List String) : List String :=
  l.foldl (fun acc x => if acc.contains x then acc else acc ++ [x]) []

theorem langFold_keys (files : List FileRec) : ∀ init : List (String × Nat),
    ((files.foldl langStep init).map Prod.fst) =
      (((files.map fun f => langOf f.name).filter fun s => s != "Unknown")).foldl
        (fun acc x => if acc.contains x then acc else acc ++ [x])
        (init.map Prod.fst) := by
  induction files with
  | nil => intro init; simp
  | cons f fs ih =>
    intro init
    simp only [List.foldl_cons, List.map_cons, List.filter_cons, langStep]
    cases hb : (langOf f.name != "Unknown") with
    | false =>
      rw [if_neg (by simp [hb])]
      exact ih init
    | true =>
      rw [if_pos (by simp [hb]), ih, if_pos rfl, List.foldl_cons, bump_keys]

theorem frontendFiles_skip (xs ys : List FileRec) (f : FileRec)
    (h : bucketOf f.name = .other) :
    frontendFiles (xs ++ f :: ys) = frontendFiles (xs ++ ys) := by
  simp [frontendFiles, List.filter_append, List.filter_cons, h]

theorem backendFiles_skip (xs ys : List FileRec) (f : FileRec)
    (h : bucketOf f.name = .other) :
    backendFiles (xs ++ f :: ys) = backendFiles (xs ++ ys) := by
  simp [backendFiles, List.filter_append, List.filter_cons, h]

theorem databaseFiles_skip (xs ys : List FileRec) (f : FileRec)
    (h : bucketOf f.name = .other) :
    databaseFiles (xs ++ f :: ys) = databaseFiles (xs ++ ys) := by
  simp [databaseFiles, List.filter_append, List.filter_cons, h]

theorem da_frontend (e : List String → List String) (files : List FileRec) :
    (analyze_files e files).detailed_analysis.frontend =
      analyze_frontend e (frontendFiles files) (scanFiles files).frameworks := rfl

theorem da_backend (e : List String → List String) (files : List FileRec) :
    (analyze_files e files).detailed_analysis.backend =
      analyze_backend e (backendFiles files) (scanFiles files).frameworks
        (scanFiles files).databases := rfl

theorem da_database (e : List String → List String) (files : List FileRec) :
    (analyze_files e files).detailed_analysis.database =
      analyze_database e (databaseFiles files) (scanFiles files).databases := rfl

theorem head_isSome_of_ne_nil {l : List String} (h : l ≠ []) :
    l.head? ≠ none := by
  cases l with
  | nil => exact absurd rfl h
  | cons a l => simp

theorem perm_of_validEnum {e : List String → List String} (he : validEnum e)
    {m : List String} (h : m ≠ []) : e m ≠ [] := by
  intro hnil
  have hp := he m
  rw [hnil] at hp
  have hd : m.dedup = [] := (List.Perm.eq_nil hp.symm)
  exact h ((List.dedup_eq_nil m).mp hd)

/-! ### Claim theorems -/

/-- C1: the empty input file sequence is rejected before any processing
with the InvalidInput condition and no partial result, and this rejection
is the only failure of the endpoint: the analysis of any non-empty file
list succeeds. -/
theorem c1_empty_input_only_failure :
    (∀ e : List String → List String,
      analyze_files_endpoint e [] = Except.error AnalyzeError.invalidInput) ∧
    (∀ (e : List String → List String) (files : List FileRec),
      (∃ err, analyze_files_endpoint e files = Except.error err) ↔ files = []) := by
  constructor
  · intro e; rfl
  · intro e files
    constructor
    · rintro ⟨err, herr⟩
      cases files with
      | nil => rfl
      | cons f fs => simp [analyze_files_endpoint] at herr
    · rintro rfl
      exact ⟨.invalidInput, rfl⟩

/-- C5: the complexity score is the minimum of the total line count over
1000 and 10; it is monotone in the total line count, saturates at 10 for
10000 or more lines, is 0 for the empty file list, and stays within 0..10. -/
theorem c5_complexity_score :
    (∀ (e : List String → List String) (files : List FileRec),
      (analyze_files e files).complexity_score =
        min ((((files.map fun f => countLines f.content).sum : ℚ)) / 1000) 10) ∧
    (∀ a b : Nat, a < b →
      min ((a : ℚ) / 1000) 10 ≤ min ((b : ℚ) / 1000) 10) ∧
    (∀ x : Nat, 10000 ≤ x → min ((x : ℚ) / 1000) 10 = 10) ∧
    (∀ e : List String → List String,
      (analyze_files e []).complexity_score = 0) ∧
    (∀ x : Nat, 0 ≤ min ((x : ℚ) / 1000) 10 ∧ min ((x : ℚ) / 1000) 10 ≤ 10) := by
  refine ⟨?_, ?_, ?_, ?_, ?_⟩
  · intro e files
    have h : (analyze_files e files).complexity_score =
        min (((scanFiles files).totalLines : ℚ) / 1000) 10 := rfl
    rw [h, scanFiles, scanFold_totalLines]
    have h0 : initScan.totalLines = 0 := rfl
    rw [h0, Nat.zero_add]
  · intro a b hab
    apply min_le_min _ (le_refl (10 : ℚ))
    have h : (a : ℚ) ≤ b := by exact_mod_cast le_of_lt hab
    linarith
  · intro x hx
    apply min_eq_right
    have h : (10000 : ℚ) ≤ x := by exact_mod_cast hx
    linarith
  · intro e
    have h : (analyze_files e []).complexity_score =
        min (((0 : Nat) : ℚ) / 1000) 10 := rfl
    rw [h]
    norm_num
  · intro x
    constructor
    · apply le_min
      · positivity
      · norm_num
    · exact min_le_right _ _

/-- Witness for C5, instantiating the monotonicity and saturation parts at
concrete line counts. -/
theorem c5_complexity_score_w :
    min ((3 : ℚ) / 1000) 10 ≤ min ((5 : ℚ) / 1000) 10 ∧
    min ((12000 : ℚ) / 1000) 10 = 10 :=
  ⟨(by exact_mod_cast c5_complexity_score.2.1 3 5 (by norm_num)),
   (by exact_mod_cast c5_complexity_score.2.2.1 12000 (by norm_num))⟩

/-- C6: the histogram counts sum to the number of files whose extension
resolved to a known language, and every histogram entry has count at
least one. -/
theorem c6_histogram_invariants (files : List FileRec) :
    (((scanFiles files).languages).map Prod.snd).sum =
      (files.filter fun f => langOf f.name != "Unknown").length ∧
    ∀ p ∈ (scanFiles files).languages, 1 ≤ p.2 :=
  ⟨scanLanguages_sum files, scanLanguages_pos files⟩

/-- Witness for C6 at the one-file FastAPI input: the unique Python entry
has count one and the sum matches the known-file count. -/
theorem c6_histogram_invariants_w :
    (((scanFiles [serverPy]).languages).map Prod.snd).sum =
      ([serverPy].filter fun f => langOf f.name != "Unknown").length ∧
    1 ≤ (("Python", 1) : String × Nat).2 :=
  ⟨(c6_histogram_invariants [serverPy]).1,
   (c6_histogram_invariants [serverPy]).2 ("Python", 1) (by decide)⟩

/-- C7: the line count of a file is the segment count of splitting its
content on the newline character (one more than the newline count, so the
empty content counts as one line); the total line count sums the per-file
counts over all files, and the structure listing joins one rendered entry
per file in input order. -/
theorem c7_line_count_and_structure :
    countLines "" = 1 ∧
    (∀ s : String, countLines s = s.data.count '\n' + 1) ∧
    (∀ files : List FileRec,
      (scanFiles files).totalLines =
        (files.map fun f => countLines f.content).sum) ∧
    (∀ (e : List String → List String) (files : List FileRec),
      (analyze_files e files).structureListing =
        String.intercalate "\n" (files.map structureEntry)) := by
  refine ⟨rfl, ?_, ?_, ?_⟩
  · intro s
    exact splitOnCh_length '\n' s.data
  · intro files
    rw [scanFiles, scanFold_totalLines]
    simp [initScan]
  · intro e files
    have h : (analyze_files e files).structureListing =
        String.intercalate "\n" (scanFiles files).fileStructure := rfl
    rw [h, scanFiles, scanFold_fileStructure]
    simp [initScan]

/-- C2: the detected framework set of the React-plus-Flask input holds
React then Flask in first-seen order, yet the reported primary framework
is the head of a hash-ordered set enumeration: two valid enumerations of
the same two-element set yield different primary frameworks, so the
first-seen claim (and run-to-run determinism) fails on the source, which
takes element zero of an unordered set. -/
theorem c2_set_order_dependence :
    (scanFiles [fAppJsx, fServerFlask]).frameworks = ["React", "Flask"] ∧
    (analyze_files (fun m => m.dedup) [fAppJsx, fServerFlask]).framework =
      some "React" ∧
    (analyze_files (fun m => m.dedup.reverse) [fAppJsx, fServerFlask]).framework =
      some "Flask" ∧
    ((fun m : List String => m.dedup.reverse) ["React", "Flask"]).Perm
      ((fun m : List String => m.dedup) ["React", "Flask"]) :=
  ⟨by decide, by decide, by decide, by decide⟩

/-- Counterexample to C8: a file in no bucket still reaches two analyzers
beyond Overview and Flow.  The architecture analyzer scans the whole file
list, so a bucket-less file named after a controller flips its detected
patterns; and the frontend frameworks summary reflects the globally
detected set, so a bucket-less file whose content matches the React
signature changes the frontend aspect. -/
theorem c8_bucketless_counterexample :
    bucketOf fCtrlStray.name = FileBucket.other ∧
    (analyze_files (fun m => m.dedup) [fCtrlStray]).detailed_analysis.architecture.patterns =
      ["MVC"] ∧
    (analyze_files (fun m => m.dedup) []).detailed_analysis.architecture.patterns = [] ∧
    bucketOf fReactStray.name = FileBucket.other ∧
    (analyze_files (fun m => m.dedup) [fReactStray]).detailed_analysis.frontend.frameworks_used =
      ["React"] ∧
    (analyze_files (fun m => m.dedup) []).detailed_analysis.frontend.frameworks_used = [] :=
  ⟨by decide, by decide, by decide, by decide, by decide, by decide⟩

/-- C8 amended: a file matching none of the four buckets is excluded from
the per-file scans of the Frontend, Backend and Database analyzers — all
their file-derived fields are unchanged when such a file is inserted
anywhere in the input — while Overview, Architecture and Flow scan the
entire file list, and the globally derived framework and database
summaries may still reflect the file. -/
theorem c8_bucketless_exclusion_amended (e : List String → List String)
    (xs ys : List FileRec) (f : FileRec) (h : bucketOf f.name = .other) :
    ((analyze_files e (xs ++ f :: ys)).detailed_analysis.frontend.components =
      (analyze_files e (xs ++ ys)).detailed_analysis.frontend.components) ∧
    ((analyze_files e (xs ++ f :: ys)).detailed_analysis.frontend.styles =
      (analyze_files e (xs ++ ys)).detailed_analysis.frontend.styles) ∧
    ((analyze_files e (xs ++ f :: ys)).detailed_analysis.frontend.routing_files =
      (analyze_files e (xs ++ ys)).detailed_analysis.frontend.routing_files) ∧
    ((analyze_files e (xs ++ f :: ys)).detailed_analysis.frontend.state_management =
      (analyze_files e (xs ++ ys)).detailed_analysis.frontend.state_management) ∧
    ((analyze_files e (xs ++ f :: ys)).detailed_analysis.backend.api_files =
      (analyze_files e (xs ++ ys)).detailed_analysis.backend.api_files) ∧
    ((analyze_files e (xs ++ f :: ys)).detailed_analysis.backend.models =
      (analyze_files e (xs ++ ys)).detailed_analysis.backend.models) ∧
    ((analyze_files e (xs ++ f :: ys)).detailed_analysis.backend.middleware =
      (analyze_files e (xs ++ ys)).detailed_analysis.backend.middleware) ∧
    ((analyze_files e (xs ++ f :: ys)).detailed_analysis.database.schemas =
      (analyze_files e (xs ++ ys)).detailed_analysis.database.schemas) ∧
    ((analyze_files e (xs ++ f :: ys)).detailed_analysis.database.migrations =
      (analyze_files e (xs ++ ys)).detailed_analysis.database.migrations) := by
  have hfe := frontendFiles_skip xs ys f h
  have hbe := backendFiles_skip xs ys f h
  have hde := databaseFiles_skip xs ys f h
  refine ⟨?_, ?_, ?_, ?_, ?_, ?_, ?_, ?_, ?_⟩
  · rw [da_frontend, da_frontend, hfe]
    rfl
  · rw [da_frontend, da_frontend, hfe]
    rfl
  · rw [da_frontend, da_frontend, hfe]
    rfl
  · rw [da_frontend, da_frontend, hfe]
    rfl
  · rw [da_backend, da_backend, hbe]
    rfl
  · rw [da_backend, da_backend, hbe]
    rfl
  · rw [da_backend, da_backend, hbe]
    rfl
  · rw [da_database, da_database, hde]
    rfl
  · rw [da_database, da_database, hde]
    rfl

/-- Witness for the amended C8: inserting the bucket-less controller file
into the one-file FastAPI input changes none of the nine file-derived
fields. -/
theorem c8_bucketless_exclusion_amended_w :
    ((analyze_files (fun m => m.dedup) ([serverPy] ++ fCtrlStray :: [])).detailed_analysis.frontend.components =
      (analyze_files (fun m => m.dedup) ([serverPy] ++ [])).detailed_analysis.frontend.components) ∧
    ((analyze_files (fun m => m.dedup) ([serverPy] ++ fCtrlStray :: [])).detailed_analysis.frontend.styles =
      (analyze_files (fun m => m.dedup) ([serverPy] ++ [])).detailed_analysis.frontend.styles) ∧
    ((analyze_files (fun m => m.dedup) ([serverPy] ++ fCtrlStray :: [])).detailed_analysis.frontend.routing_files =
      (analyze_files (fun m => m.dedup) ([serverPy] ++ [])).detailed_analysis.frontend.routing_files) ∧
    ((analyze_files (fun m => m.dedup) ([serverPy] ++ fCtrlStray :: [])).detailed_analysis.frontend.state_management =
      (analyze_files (fun m => m.dedup) ([serverPy] ++ [])).detailed_analysis.frontend.state_management) ∧
    ((analyze_files (fun m => m.dedup) ([serverPy] ++ fCtrlStray :: [])).detailed_analysis.backend.api_files =
      (analyze_files (fun m => m.dedup) ([serverPy] ++ [])).detailed_analysis.backend.api_files) ∧
    ((analyze_files (fun m => m.dedup) ([serverPy] ++ fCtrlStray :: [])).detailed_analysis.backend.models =
      (analyze_files (fun m => m.dedup) ([serverPy] ++ [])).detailed_analysis.backend.models) ∧
    ((analyze_files (fun m => m.dedup) ([serverPy] ++ fCtrlStray :: [])).detailed_analysis.backend.middleware =
      (analyze_files (fun m => m.dedup) ([serverPy] ++ [])).detailed_analysis.backend.middleware) ∧
    ((analyze_files (fun m => m.dedup) ([serverPy] ++ fCtrlStray :: [])).detailed_analysis.database.schemas =
      (analyze_files (fun m => m.dedup) ([serverPy] ++ [])).detailed_analysis.database.schemas) ∧
    ((analyze_files (fun m => m.dedup) ([serverPy] ++ fCtrlStray :: [])).detailed_analysis.database.migrations =
      (analyze_files (fun m => m.dedup) ([serverPy] ++ [])).detailed_analysis.database.migrations) :=
  c8_bucketless_exclusion_amended (fun m => m.dedup) [serverPy] [] fCtrlStray (by decide)

/-- Counterexample to C9: on a non-empty input whose single file has an
unknown extension and no matching signature, the main language and the
primary framework fields hold the null value None, not an empty string. -/
theorem c9_null_fields_counterexample :
    (analyze_files (fun m => m.dedup) [fUnknownEmpty]).main_language = none ∧
    (analyze_files (fun m => m.dedup) [fUnknownEmpty]).framework = none :=
  ⟨by decide, by decide⟩

/-- C9 amended: the result fields are always present; the technologies
list and the detailed analysis are always well-formed values and the
architecture type is always a non-null string, but the main language is
null exactly when no file resolved to a known language and the framework
is null exactly when no framework signature matched. -/
theorem c9_field_presence_amended (e : List String → List String)
    (he : validEnum e) (files : List FileRec) :
    ((analyze_files e files).main_language = none ↔
      ∀ f ∈ files, langOf f.name = "Unknown") ∧
    ((analyze_files e files).framework = none ↔
      (scanFiles files).frameworks = []) ∧
    (analyze_files e files).architecture_type ≠ none := by
  refine ⟨?_, ?_, ?_⟩
  · have h : (analyze_files e files).main_language =
        (if (scanFiles files).languages.isEmpty then none
         else maxByCount (scanFiles files).languages) := rfl
    rw [h, ← scan_languages_nil]
    rcases hl : (scanFiles files).languages with _ | ⟨p, rest⟩
    · simp
    · simp [maxByCount]
  · have h : (analyze_files e files).framework =
        (if (scanFiles files).frameworks.isEmpty then none
         else (e (scanFiles files).frameworks).head?) := rfl
    rw [h]
    rcases hl : (scanFiles files).frameworks with _ | ⟨x, rest⟩
    · simp
    · have hne : (x :: rest) ≠ [] := by simp
      have hee : e (x :: rest) ≠ [] := perm_of_validEnum he hne
      rw [if_neg (show ¬((x :: rest).isEmpty = true) by simp)]
      constructor
      · intro hh
        exact absurd hh (head_isSome_of_ne_nil hee)
      · intro hh
        exact absurd hh (by simp)
  · exact Option.some_ne_none _

/-- Witness for the amended C9 at the unknown-extension empty file under
the deduplicating enumeration. -/
theorem c9_field_presence_amended_w :
    ((analyze_files (fun m => m.dedup) [fUnknownEmpty]).main_language = none ↔
      ∀ f ∈ [fUnknownEmpty], langOf f.name = "Unknown") ∧
    ((analyze_files (fun m => m.dedup) [fUnknownEmpty]).framework = none ↔
      (scanFiles [fUnknownEmpty]).frameworks = []) ∧
    (analyze_files (fun m => m.dedup) [fUnknownEmpty]).architecture_type ≠ none :=
  c9_field_presence_amended (fun m => m.dedup) validEnum_dedup [fUnknownEmpty]

/-- C3: when the histogram is non-empty, the reported main language is a
histogram key whose count is greatest (no other count exceeds it) and
every entry inserted earlier has a strictly smaller count, so ties go to
the key first encountered; moreover the histogram keys appear exactly in
first-seen order of the known languages over the files in input order. -/
theorem c3_main_language (e : List String → List String) (files : List FileRec)
    (h : (scanFiles files).languages ≠ []) :
    (∃ i mk, (scanFiles files).languages.get? i = some mk ∧
      (analyze_files e files).main_language = some mk.1 ∧
      (∀ q ∈ (scanFiles files).languages, q.2 ≤ mk.2) ∧
      (∀ j, j < i → ∀ q, (scanFiles files).languages.get? j = some q →
        q.2 < mk.2)) ∧
    ((scanFiles files).languages.map Prod.fst) =
      firstSeen ((files.map fun f => langOf f.name).filter
        fun s => s != "Unknown") := by
  constructor
  · rcases hl : (scanFiles files).languages with _ | ⟨p, rest⟩
    · exact absurd hl h
    · have hml : (analyze_files e files).main_language =
          some ((rest.foldl (fun b q => if q.2 > b.2 then q else b) p).1) := by
        have h0 : (analyze_files e files).main_language =
            (if (scanFiles files).languages.isEmpty then none
             else maxByCount (scanFiles files).languages) := rfl
        rw [h0, hl]
        rfl
      obtain ⟨h1, h2, h3⟩ := foldl_maxsel rest p
      rcases h3 with he | ⟨i, hi, hlt, hpre⟩
      · refine ⟨0, p, rfl, ?_, ?_, ?_⟩
        · rw [hml, he]
        · intro q hq
          rcases List.mem_cons.mp hq with rfl | hq
          · exact le_refl _
          · have hle := h1 q hq
            rw [he] at hle
            exact hle
        · intro j hj
          omega
      · refine ⟨i + 1, _, ?_, hml, ?_, ?_⟩
        · rw [List.get?_cons_succ]
          exact hi
        · intro q hq
          rcases List.mem_cons.mp hq with rfl | hq
          · exact h2
          · exact h1 q hq
        · intro j hj q hq
          cases j with
          | zero =>
            rw [List.get?_cons_zero] at hq
            injection hq with hq
            rw [← hq]
            exact hlt
          | succ j =>
            rw [List.get?_cons_succ] at hq
            exact hpre j (by omega) q hq
  · have h2 : (scanFiles files).languages = files.foldl langStep [] := by
      rw [scanFiles, scanFold_languages]
      rfl
    rw [h2, langFold_keys]
    rfl

/-- Witness for C3 at the one-file FastAPI input: Python is reported. -/
theorem c3_main_language_w :
    (∃ i mk, (scanFiles [serverPy]).languages.get? i = some mk ∧
      (analyze_files (fun m => m.dedup) [serverPy]).main_language = some mk.1 ∧
      (∀ q ∈ (scanFiles [serverPy]).languages, q.2 ≤ mk.2) ∧
      (∀ j, j < i → ∀ q, (scanFiles [serverPy]).languages.get? j = some q →
        q.2 < mk.2)) ∧
    ((scanFiles [serverPy]).languages.map Prod.fst) =
      firstSeen (([serverPy].map fun f => langOf f.name).filter
        fun s => s != "Unknown") :=
  c3_main_language (fun m => m.dedup) [serverPy] (by decide)

/-- C4: the architecture label is decided by a fixed first-match-wins
order over the frontend and backend intersections and the HTML and CSS
histogram keys, and the reported architecture type is invariant under any
permutation of the input file list. -/
theorem c4_architecture_rules :
    (∀ (fw : List String) (langs : List (String × Nat)),
      (determine_architecture fw langs = "Full-stack" ↔
        hasFrontendFw fw = true ∧ hasBackendFw fw = true) ∧
      (determine_architecture fw langs = "Frontend" ↔
        hasFrontendFw fw = true ∧ hasBackendFw fw = false) ∧
      (determine_architecture fw langs = "Backend" ↔
        hasFrontendFw fw = false ∧ hasBackendFw fw = true) ∧
      (determine_architecture fw langs = "Static Website" ↔
        hasFrontendFw fw = false ∧ hasBackendFw fw = false ∧
          (langs.any fun p => p.1 == "HTML") = true ∧
          (langs.any fun p => p.1 == "CSS") = true) ∧
      (determine_architecture fw langs = "Unknown" ↔
        hasFrontendFw fw = false ∧ hasBackendFw fw = false ∧
          ¬((langs.any fun p => p.1 == "HTML") = true ∧
            (langs.any fun p => p.1 == "CSS") = true))) ∧
    (∀ (e : List String → List String) (files files2 : List FileRec),
      files.Perm files2 →
      (analyze_files e files).architecture_type =
        (analyze_files e files2).architecture_type) := by
  constructor
  · intro fw langs
    cases hf : hasFrontendFw fw <;> cases hb : hasBackendFw fw <;>
      cases hh : (langs.any fun p => p.1 == "HTML") <;>
      cases hc : (langs.any fun p => p.1 == "CSS") <;>
      simp [determine_architecture, hf, hb, hh, hc]
  · intro e files files2 hperm
    have hfw : ∀ x, x ∈ (scanFiles files).frameworks ↔
        x ∈ (scanFiles files2).frameworks := by
      intro x
      rw [scan_frameworks_mem, scan_frameworks_mem]
      constructor
      · rintro ⟨f, hf, hrest⟩
        exact ⟨f, hperm.mem_iff.mp hf, hrest⟩
      · rintro ⟨f, hf, hrest⟩
        exact ⟨f, hperm.mem_iff.mpr hf, hrest⟩
    have hkey : ∀ k : String,
        ((scanFiles files).languages.any fun p => p.1 == k) =
        ((scanFiles files2).languages.any fun p => p.1 == k) := by
      intro k
      apply bool_eq_of_iff
      rw [scan_languages_hasKey, scan_languages_hasKey]
      constructor
      · rintro ⟨f, hf, hrest⟩
        exact ⟨f, hperm.mem_iff.mp hf, hrest⟩
      · rintro ⟨f, hf, hrest⟩
        exact ⟨f, hperm.mem_iff.mpr hf, hrest⟩
    have harch : determine_architecture (scanFiles files).frameworks
        (scanFiles files).languages =
        determine_architecture (scanFiles files2).frameworks
          (scanFiles files2).languages := by
      unfold determine_architecture
      rw [hasFrontendFw_congr hfw, hasBackendFw_congr hfw, hkey "HTML", hkey "CSS"]
    have h1 : (analyze_files e files).architecture_type =
        some (determine_architecture (scanFiles files).frameworks
          (scanFiles files).languages) := rfl
    have h2 : (analyze_files e files2).architecture_type =
        some (determine_architecture (scanFiles files2).frameworks
          (scanFiles files2).languages) := rfl
    rw [h1, h2, harch]

/-- Witness for C4: swapping the React file and the Flask file leaves the
reported architecture type unchanged. -/
theorem c4_architecture_rules_w :
    (analyze_files (fun m => m.dedup) [fAppJsx, fServerFlask]).architecture_type =
      (analyze_files (fun m => m.dedup) [fServerFlask, fAppJsx]).architecture_type :=
  c4_architecture_rules.2 (fun m => m.dedup) [fAppJsx, fServerFlask]
    [fServerFlask, fAppJsx] (List.Perm.swap fServerFlask fAppJsx [])

/-- C10: on the single FastAPI server file, the pipeline reports Python as
the main language, FastAPI as the primary framework under any valid set
enumeration, Backend as the architecture type, and the backend aspect
holds the uppercased GET /users endpoint. -/
theorem c10_fastapi_scenario (e : List String → List String)
    (he : validEnum e) :
    (analyze_files e [serverPy]).main_language = some "Python" ∧
    (analyze_files e [serverPy]).framework = some "FastAPI" ∧
    (analyze_files e [serverPy]).architecture_type = some "Backend" ∧
    ∃ a ∈ (analyze_files e [serverPy]).detailed_analysis.backend.api_files,
      (⟨"GET", "/users"⟩ : Endpoint) ∈ a.endpoints := by
  refine ⟨?_, ?_, ?_, ?_⟩
  · have h : (analyze_files e [serverPy]).main_language =
        (if (scanFiles [serverPy]).languages.isEmpty then none
         else maxByCount (scanFiles [serverPy]).languages) := rfl
    rw [h]
    decide
  · have h : (analyze_files e [serverPy]).framework =
        (if (scanFiles [serverPy]).frameworks.isEmpty then none
         else (e (scanFiles [serverPy]).frameworks).head?) := rfl
    have hfw : (scanFiles [serverPy]).frameworks = ["FastAPI"] := by decide
    rw [h, hfw, if_neg (show ¬((["FastAPI"] : List String).isEmpty = true) by simp)]
    have hp := he ["FastAPI"]
    have hd : (["FastAPI"] : List String).dedup = ["FastAPI"] := by decide
    rw [hd] at hp
    rw [List.perm_singleton.mp hp]
    rfl
  · have h : (analyze_files e [serverPy]).architecture_type =
        some (determine_architecture (scanFiles [serverPy]).frameworks
          (scanFiles [serverPy]).languages) := rfl
    rw [h]
    decide
  · have h : (analyze_files e [serverPy]).detailed_analysis.backend.api_files =
        (backendFiles [serverPy]).filterMap (fun f =>
          let endpoints := extract_api_endpoints f.content
          if endpoints.isEmpty then none else some ⟨f.name, endpoints⟩) := rfl
    rw [h]
    have hlist : (backendFiles [serverPy]).filterMap (fun f =>
          let endpoints := extract_api_endpoints f.content
          if endpoints.isEmpty then none else some ⟨f.name, endpoints⟩) =
        ([⟨"server.py", [⟨"GET", "/users"⟩, ⟨"GET", "/users"⟩]⟩] : List ApiFile) := by
      decide
    rw [hlist]
    exact ⟨(⟨"server.py", [⟨"GET", "/users"⟩, ⟨"GET", "/users"⟩]⟩ : ApiFile),
      List.mem_singleton.mpr rfl, List.mem_cons_self _ _⟩

/-- Witness for C10 under the deduplicating enumeration. -/
theorem c10_fastapi_scenario_w :
    (analyze_files (fun m => m.dedup) [serverPy]).main_language = some "Python" ∧
    (analyze_files (fun m => m.dedup) [serverPy]).framework = some "FastAPI" ∧
    (analyze_files (fun m => m.dedup) [serverPy]).architecture_type = some "Backend" ∧
    ∃ a ∈ (analyze_files (fun m => m.dedup) [serverPy]).detailed_analysis.backend.api_files,
      (⟨"GET", "/users"⟩ : Endpoint) ∈ a.endpoints :=
  c10_fastapi_scenario (fun m => m.dedup) validEnum_dedup
